import Mathlib

/- Verification of vita_rename.go: the SFO metadata decoder (parseSfo), the
   filename sanitizer (safeString) and the per-archive aggregation step of
   task, shallowly embedded over byte lists.  Go strings are byte sequences,
   modelled here as lists of naturals; Go maps from string to string are
   modelled as association lists with in-place overwrite; Go slice
   expressions that would panic out of range, binary.Read failures that the
   check helper turns into a panic, and the string slice tid[0:4] are made
   explicit as the error branch of an Except. -/

namespace VitaRename

/-- Go byte strings: lists of byte values. -/
abbrev GoStr := List Nat

/-- Bytes of an ASCII Lean string literal, for writing Go string constants. -/
def byteLit (s : String) : GoStr := s.toList.map Char.toNat

/-- Association-list model of a Go map from string to string. -/
abbrev GoMap := List (GoStr × GoStr)

/-- Lookup in the map model. -/
def mapFind : GoMap → GoStr → Option GoStr
  | [], _ => none
  | (k0, v0) :: rest, k => if k0 = k then some v0 else mapFind rest k

/-- The comma-ok form of a Go map read. -/
def mapContains (m : GoMap) (k : GoStr) : Bool := (mapFind m k).isSome

/-- A Go map read, returning the zero string when the key is absent. -/
def mGet (m : GoMap) (k : GoStr) : GoStr := (mapFind m k).getD []

/-- Go map assignment: overwrite in place, else append. -/
def mapSet : GoMap → GoStr → GoStr → GoMap
  | [], k, v => [(k, v)]
  | (k0, v0) :: rest, k, v =>
      if k0 = k then (k, v) :: rest else (k0, v0) :: mapSet rest k v

/-- Bytes removed by safeString: NUL, CR, LF, backslash, double quote,
slash, colon, asterisk, question mark, angle brackets, pipe. -/
def badByte (b : Nat) : Bool :=
  b == 0 || b == 13 || b == 10 || b == 92 || b == 34 || b == 47 ||
  b == 58 || b == 42 || b == 63 || b == 60 || b == 62 || b == 124

/-- Embeds safeString of vita_rename.go: the strings.NewReplacer there maps
each of the twelve single-byte patterns to the empty string, which deletes
every occurrence of those bytes. -/
def safeString (s : GoStr) : GoStr := s.filter (fun b => !badByte b)

/-- Little-endian unsigned 32-bit decode at a byte offset, 0 past the end. -/
def decodeU32 (l : List Nat) (off : Nat) : Nat :=
  l.getD off 0 % 256 + 256 * (l.getD (off + 1) 0 % 256) +
  65536 * (l.getD (off + 2) 0 % 256) + 16777216 * (l.getD (off + 3) 0 % 256)

/-- Reinterpret an unsigned 32-bit value as Go int32. -/
def toI32 (n : Nat) : Int :=
  if n % 4294967296 < 2147483648 then (n % 4294967296 : Int)
  else (n % 4294967296 : Int) - 4294967296

/-- Little-endian int32 decode, as binary.Read fills the header and index
structs. -/
def decodeI32 (l : List Nat) (off : Nat) : Int := toI32 (decodeU32 l off)

/-- Go int32 addition wraps modulo 2^32 into the signed range. -/
def wrap32 (x : Int) : Int := (x + 2147483648) % 4294967296 - 2147483648

/-- Embeds the regions lookup table of vita_rename.go. -/
def regions : GoMap :=
  [ (byteLit "PCSB", byteLit "EUR"), (byteLit "VCES", byteLit "EUR"),
    (byteLit "VLES", byteLit "EUR"), (byteLit "PCSF", byteLit "EUR"),
    (byteLit "PCSE", byteLit "USA"), (byteLit "PCSA", byteLit "USA"),
    (byteLit "PCSD", byteLit "USA"), (byteLit "VCUS", byteLit "USA"),
    (byteLit "VLUS", byteLit "USA"), (byteLit "PCSG", byteLit "JAP"),
    (byteLit "PCSC", byteLit "JAP"), (byteLit "VCJS", byteLit "JAP"),
    (byteLit "VLJM", byteLit "JAP"), (byteLit "VLJS", byteLit "JAP"),
    (byteLit "PCSH", byteLit "ASIA"), (byteLit "VCAS", byteLit "ASIA"),
    (byteLit "VLAS", byteLit "ASIA") ]

/-- Ways parseSfo can panic: a short binary.Read (check panics on
io.ErrUnexpectedEOF), an out-of-range byte-slice expression, and the
out-of-range string slice tid[0:4]. -/
inductive Panic where
  | truncatedRead
  | sliceBounds
  | stringSlice
deriving DecidableEq

/-- The SFO magic constant 1179865088 checked against Header.Magic. -/
def sfoMagic : Int := 1179865088

/-- The map parseSfo starts from: a single default REGION entry. -/
def defaultRecord : GoMap := [(byteLit "REGION", byteLit "UNK")]

/-- Embeds bytes.Trim(slice, nul): drop NUL bytes from both ends. -/
def trimNulls (l : List Nat) : List Nat :=
  ((l.dropWhile (· == 0)).reverse.dropWhile (· == 0)).reverse

/-- The key-table slice sfob from KeyOffset to DataOffset, meaningful once
the slice bounds have been checked. -/
def keySlice (sfob : List Nat) : List Nat :=
  (sfob.drop (decodeI32 sfob 8).toNat).take
    (decodeI32 sfob 12 - decodeI32 sfob 8).toNat

/-- The keys parseSfo iterates over: the key-table slice, NUL-trimmed, then
split on NUL, exactly as bytes.Split does (an empty slice still yields one
empty key). -/
def sfoKeys (sfob : List Nat) : List GoStr :=
  List.splitOn 0 (trimNulls (keySlice sfob))

/-- The region recomputation done after every insertion: when a TITLE_ID
value is present its string slice tid[0:4] is looked up in regions; a value
shorter than four bytes makes that slice panic in Go. -/
def regionUpdate (m : GoMap) : Except Panic GoMap :=
  match mapFind m (byteLit "TITLE_ID") with
  | none => Except.ok m
  | some tid =>
      if 4 ≤ tid.length then
        match mapFind regions (tid.take 4) with
        | some reg => Except.ok (mapSet m (byteLit "REGION") reg)
        | none => Except.ok m
      else Except.error Panic.stringSlice

/-- One loop body of parseSfo given the already-decoded ParamLength and
DataTableOffset of the current index entry: compute the int32 value range
(Go int32 addition wraps), slice the buffer (panicking out of range as the
Go slice expression does), sanitize, store, and rederive REGION. -/
def processEntry (sfob : List Nat) (dataOff : Int) (k : GoStr)
    (plen dto : Int) (m : GoMap) : Except Panic GoMap :=
  if 0 ≤ wrap32 (dataOff + dto) ∧
      wrap32 (dataOff + dto) ≤ wrap32 (wrap32 (dataOff + dto) + plen) ∧
      wrap32 (wrap32 (dataOff + dto) + plen) ≤ (sfob.length : Int) then
    regionUpdate (mapSet m k (safeString
      ((sfob.drop (wrap32 (dataOff + dto)).toNat).take
        (wrap32 (wrap32 (dataOff + dto) + plen) - wrap32 (dataOff + dto)).toNat)))
  else Except.error Panic.sliceBounds

/-- The loop of parseSfo over the split keys.  Index entries are read
sequentially from byte 20 onward, sixteen bytes per iteration; a read that
finds no bytes at all is io.EOF, which check lets pass, leaving the Index
struct zero, while a partial read is io.ErrUnexpectedEOF and panics. -/
def loopEntries (sfob : List Nat) (dataOff : Int) :
    List GoStr → Nat → GoMap → Except Panic GoMap
  | [], _, m => Except.ok m
  | k :: ks, pos, m =>
      if sfob.length ≤ pos then
        match processEntry sfob dataOff k 0 0 m with
        | Except.ok m2 => loopEntries sfob dataOff ks (pos + 16) m2
        | Except.error e => Except.error e
      else if sfob.length < pos + 16 then Except.error Panic.truncatedRead
      else
        match processEntry sfob dataOff k (decodeI32 sfob (pos + 4))
            (decodeI32 sfob (pos + 12)) m with
        | Except.ok m2 => loopEntries sfob dataOff ks (pos + 16) m2
        | Except.error e => Except.error e

/-- Embeds parseSfo of vita_rename.go.  An empty buffer gives io.EOF on the
header read, which check allows, leaving the header zero, so the magic test
fails and the default record is returned; one to nineteen bytes give
io.ErrUnexpectedEOF and panic; with a wrong magic the default record is
returned; otherwise the key-table slice expression runs (panicking when the
offsets are out of range) and the loop processes every split key.  The
Entries field of the header is decoded into the struct but never used. -/
def parseSfo (sfob : List Nat) : Except Panic GoMap :=
  if sfob.length = 0 then Except.ok defaultRecord
  else if sfob.length < 20 then Except.error Panic.truncatedRead
  else if decodeI32 sfob 0 ≠ sfoMagic then Except.ok defaultRecord
  else if 0 ≤ decodeI32 sfob 8 ∧ decodeI32 sfob 8 ≤ decodeI32 sfob 12 ∧
      decodeI32 sfob 12 ≤ (sfob.length : Int) then
    loopEntries sfob (decodeI32 sfob 12) (sfoKeys sfob) 20 defaultRecord
  else Except.error Panic.sliceBounds

/-- Embeds the NameData struct of vita_rename.go with Go zero values. -/
structure NameData where
  title : GoStr := []
  appVer : GoStr := []
  version : GoStr := []
  titleId : GoStr := []
  region : GoStr := []
  ac : Nat := 0

/-- Go string comparison: lexicographic on bytes, a strict prefix is
smaller. -/
def goLt : GoStr → GoStr → Bool
  | _, [] => false
  | [], _ :: _ => true
  | a :: as, b :: bs => if a < b then true else if b < a then false else goLt as bs

/-- Embeds the per-record body of the loop in task: bump the add-on-content
counter when CATEGORY is the ac marker, then, only when APP_VER is present,
keep the lexicographically larger appVer and version and take title,
titleId and region from this record. -/
def taskStep (d : NameData) (m : GoMap) : NameData :=
  let d1 := if mGet m (byteLit "CATEGORY") = byteLit "ac"
    then { d with ac := d.ac + 1 } else d
  if mapContains m (byteLit "APP_VER") then
    let d2 := if goLt d1.appVer (mGet m (byteLit "APP_VER"))
      then { d1 with appVer := mGet m (byteLit "APP_VER") } else d1
    let d3 := if goLt d2.version (mGet m (byteLit "VERSION"))
      then { d2 with version := mGet m (byteLit "VERSION") } else d2
    { d3 with title := mGet m (byteLit "TITLE"),
              titleId := mGet m (byteLit "TITLE_ID"),
              region := mGet m (byteLit "REGION") }
  else d1

/-- Folding the decoded records of one archive, in discovery order. -/
def foldRecords (d : NameData) (rs : List GoMap) : NameData :=
  rs.foldl taskStep d

/-- The rename gate of task: a rename is attempted only when the aggregated
title is nonempty. -/
def shouldRename (d : NameData) : Bool := !d.title.isEmpty

/-- Four little-endian bytes of a natural number. -/
def natBytes4 (u : Nat) : List Nat :=
  [u % 256, u / 256 % 256, u / 65536 % 256, u / 16777216 % 256]

/-- Little-endian int32 encoding. -/
def i32bytes (n : Int) : List Nat := natBytes4 ((n % 4294967296).toNat)

/-- A 20-byte SFO header. -/
def mkHeader (magic ver keyOff dataOff entries : Int) : List Nat :=
  i32bytes magic ++ i32bytes ver ++ i32bytes keyOff ++ i32bytes dataOff ++
  i32bytes entries

instance : DecidableEq (Except Panic GoMap) := fun a b =>
  match a, b with
  | Except.ok x, Except.ok y =>
      if h : x = y then isTrue (by rw [h]) else isFalse (by simp [h])
  | Except.error e, Except.error f =>
      if h : e = f then isTrue (by rw [h]) else isFalse (by simp [h])
  | Except.ok _, Except.error _ => isFalse (by simp)
  | Except.error _, Except.ok _ => isFalse (by simp)

/-- A header with good magic whose key-table offset 30 exceeds its
data-table offset 10: the slice expression sfob from 30 to 10 panics. -/
def bufC1 : List Nat := mkHeader sfoMagic 0 30 10 0

/-- A well-formed one-entry SFO except that the index entry declares a
value length of 100 while only 37 bytes exist: key table is the single
byte A at offset 36, data table starts at 37. -/
def bufC2 : List Nat :=
  mkHeader sfoMagic 0 36 37 1 ++
  [0, 0, 0, 0, 100, 0, 0, 0, 0, 0, 0, 0, 0, 0, 0, 0] ++ [65]

/-- A 20-byte buffer with good magic, key and data table offsets both 20
(empty key table) and the Entries field set to n. -/
def mkBufC4 (n : Nat) : List Nat :=
  i32bytes sfoMagic ++ i32bytes 0 ++ i32bytes 20 ++ i32bytes 20 ++ natBytes4 n

/-- The n equal to 0 instance of the family: Entries says zero entries while
the NUL split of the empty key table yields one empty key. -/
def bufC4 : List Nat := mkBufC4 0

/-- A valid two-key SFO (keys AAA and BBB with one-byte values) whose
Entries field claims seven entries. -/
def bufC4b : List Nat :=
  mkHeader sfoMagic 0 52 60 7 ++
  [0, 0, 4, 0, 1, 0, 0, 0, 1, 0, 0, 0, 0, 0, 0, 0] ++
  [4, 0, 4, 0, 1, 0, 0, 0, 1, 0, 0, 0, 1, 0, 0, 0] ++
  byteLit "AAA" ++ [0] ++ byteLit "BBB" ++ [0] ++ byteLit "x" ++ byteLit "y"

/-- A one-entry SFO whose TITLE_ID raw value A/B: is four bytes long but
sanitizes to the two bytes AB, shorter than the four-character region
prefix slice. -/
def bufC9bad : List Nat :=
  mkHeader sfoMagic 0 36 45 1 ++
  [0, 0, 0, 0, 4, 0, 0, 0, 4, 0, 0, 0, 0, 0, 0, 0] ++
  byteLit "TITLE_ID" ++ [0] ++ byteLit "A/B:"

/-- The same SFO with the four clean bytes ABCD as TITLE_ID. -/
def bufC9ok : List Nat :=
  mkHeader sfoMagic 0 36 45 1 ++
  [0, 0, 0, 0, 4, 0, 0, 0, 4, 0, 0, 0, 0, 0, 0, 0] ++
  byteLit "TITLE_ID" ++ [0] ++ byteLit "ABCD"

/-- A decoded record carrying APP_VER 2.00. -/
def recA5 : GoMap := [(byteLit "APP_VER", byteLit "2.00")]

/-- A decoded record carrying APP_VER 10.00. -/
def recB5 : GoMap := [(byteLit "APP_VER", byteLit "10.00")]

/-- A decoded record carrying APP_VER 02.00. -/
def recC5 : GoMap := [(byteLit "APP_VER", byteLit "02.00")]

/-- A record with APP_VER and TITLE, used to witness last-record-wins. -/
def recC6 : GoMap :=
  [ (byteLit "APP_VER", byteLit "1.00"), (byteLit "TITLE", byteLit "Game"),
    (byteLit "TITLE_ID", byteLit "PCSB00000"), (byteLit "REGION", byteLit "EUR") ]

/-- An add-on-content record carrying both CATEGORY ac and APP_VER. -/
def recC7 : GoMap :=
  [(byteLit "CATEGORY", byteLit "ac"), (byteLit "APP_VER", byteLit "1.00")]

/-- An add-on-content record with no APP_VER key. -/
def recC8 : GoMap := [(byteLit "CATEGORY", byteLit "ac")]

end VitaRename

namespace VitaRename

set_option maxRecDepth 4000

theorem goLt_irrefl (s : GoStr) : goLt s s = false := by
  induction s with
  | nil => rfl
  | cons a as ih => simp [goLt, ih]

theorem goLt_step_fix (cur v : GoStr) :
    (if goLt (if goLt cur v then v else cur) v then v
      else (if goLt cur v then v else cur)) =
    (if goLt cur v then v else cur) := by
  by_cases h : goLt cur v
  · simp [h, goLt_irrefl]
  · simp [h]

theorem taskStep_ac (d : NameData) (m : GoMap) :
    (taskStep d m).ac =
      if mGet m (byteLit "CATEGORY") = byteLit "ac" then d.ac + 1 else d.ac := by
  unfold taskStep
  by_cases h1 : mGet m (byteLit "CATEGORY") = byteLit "ac" <;>
    by_cases h2 : mapContains m (byteLit "APP_VER") <;>
      simp only [h1, h2, if_true, if_false, ite_true, ite_false,
        apply_ite NameData.ac, apply_ite NameData.appVer, apply_ite NameData.version,
        apply_ite NameData.title, apply_ite NameData.titleId, apply_ite NameData.region,
        Bool.false_eq_true, eq_self_iff_true, ite_self]

theorem taskStep_appVer (d : NameData) (m : GoMap) :
    (taskStep d m).appVer =
      if mapContains m (byteLit "APP_VER") then
        (if goLt d.appVer (mGet m (byteLit "APP_VER"))
          then mGet m (byteLit "APP_VER") else d.appVer)
      else d.appVer := by
  unfold taskStep
  by_cases h1 : mGet m (byteLit "CATEGORY") = byteLit "ac" <;>
    by_cases h2 : mapContains m (byteLit "APP_VER") <;>
      simp only [h1, h2, if_true, if_false, ite_true, ite_false,
        apply_ite NameData.ac, apply_ite NameData.appVer, apply_ite NameData.version,
        apply_ite NameData.title, apply_ite NameData.titleId, apply_ite NameData.region,
        Bool.false_eq_true, eq_self_iff_true, ite_self]

theorem taskStep_version (d : NameData) (m : GoMap) :
    (taskStep d m).version =
      if mapContains m (byteLit "APP_VER") then
        (if goLt d.version (mGet m (byteLit "VERSION"))
          then mGet m (byteLit "VERSION") else d.version)
      else d.version := by
  unfold taskStep
  by_cases h1 : mGet m (byteLit "CATEGORY") = byteLit "ac" <;>
    by_cases h2 : mapContains m (byteLit "APP_VER") <;>
      simp only [h1, h2, if_true, if_false, ite_true, ite_false,
        apply_ite NameData.ac, apply_ite NameData.appVer, apply_ite NameData.version,
        apply_ite NameData.title, apply_ite NameData.titleId, apply_ite NameData.region,
        Bool.false_eq_true, eq_self_iff_true, ite_self]

theorem taskStep_withAppVer (d : NameData) (m : GoMap)
    (h : mapContains m (byteLit "APP_VER") = true) :
    (taskStep d m).title = mGet m (byteLit "TITLE") ∧
    (taskStep d m).titleId = mGet m (byteLit "TITLE_ID") ∧
    (taskStep d m).region = mGet m (byteLit "REGION") := by
  unfold taskStep
  by_cases h1 : mGet m (byteLit "CATEGORY") = byteLit "ac" <;>
    simp only [h, h1, if_true, if_false, ite_true, ite_false,
      apply_ite NameData.title, apply_ite NameData.titleId, apply_ite NameData.region,
      eq_self_iff_true, ite_self, true_and, and_true, and_self]

theorem taskStep_noAppVer (d : NameData) (m : GoMap)
    (h : mapContains m (byteLit "APP_VER") = false) :
    (taskStep d m).title = d.title ∧ (taskStep d m).appVer = d.appVer ∧
    (taskStep d m).version = d.version ∧ (taskStep d m).titleId = d.titleId ∧
    (taskStep d m).region = d.region := by
  unfold taskStep
  by_cases h1 : mGet m (byteLit "CATEGORY") = byteLit "ac" <;>
    simp only [h, h1, if_true, if_false, ite_true, ite_false,
      apply_ite NameData.ac, apply_ite NameData.appVer, apply_ite NameData.version,
      apply_ite NameData.title, apply_ite NameData.titleId, apply_ite NameData.region,
      Bool.false_eq_true, eq_self_iff_true, ite_self, true_and, and_true, and_self]

theorem taskStep_repeat_appVer (d : NameData) (r : GoMap)
    (ha : mapContains r (byteLit "APP_VER") = true) :
    (taskStep (taskStep d r) r).appVer = (taskStep d r).appVer := by
  rw [taskStep_appVer (taskStep d r) r, ha, taskStep_appVer d r, ha]
  simp only [if_true]
  exact goLt_step_fix d.appVer (mGet r (byteLit "APP_VER"))

theorem taskStep_repeat_version (d : NameData) (r : GoMap)
    (ha : mapContains r (byteLit "APP_VER") = true) :
    (taskStep (taskStep d r) r).version = (taskStep d r).version := by
  rw [taskStep_version (taskStep d r) r, ha, taskStep_version d r, ha]
  simp only [if_true]
  exact goLt_step_fix d.version (mGet r (byteLit "VERSION"))

theorem fold_noAppVer (rs : List GoMap)
    (h : ∀ x ∈ rs, mapContains x (byteLit "APP_VER") = false) :
    ∀ d : NameData, (foldRecords d rs).title = d.title ∧
      (foldRecords d rs).appVer = d.appVer ∧
      (foldRecords d rs).version = d.version ∧
      (foldRecords d rs).titleId = d.titleId ∧
      (foldRecords d rs).region = d.region := by
  induction rs with
  | nil => intro d; exact ⟨rfl, rfl, rfl, rfl, rfl⟩
  | cons x xs ih =>
      intro d
      have hx := h x (List.mem_cons_self x xs)
      have hxs : ∀ y ∈ xs, mapContains y (byteLit "APP_VER") = false :=
        fun y hy => h y (List.mem_cons_of_mem x hy)
      have hstep := taskStep_noAppVer d x hx
      have hrec := ih hxs (taskStep d x)
      exact ⟨hrec.1.trans hstep.1, hrec.2.1.trans hstep.2.1,
        hrec.2.2.1.trans hstep.2.2.1, hrec.2.2.2.1.trans hstep.2.2.2.1,
        hrec.2.2.2.2.trans hstep.2.2.2.2⟩

/-- C3: for every input buffer of at least twenty bytes whose four-byte
magic field differs from the fixed signature 1179865088, parseSfo returns
normally with the record whose only key is REGION, bound to UNK. -/
theorem parse_bad_magic_default_record (sfob : List Nat)
    (hlen : 20 ≤ sfob.length) (hmag : decodeI32 sfob 0 ≠ sfoMagic) :
    parseSfo sfob = Except.ok defaultRecord := by
  unfold parseSfo
  rw [if_neg (by omega), if_neg (by omega), if_pos hmag]

/-- Witness for C3 at the all-zero twenty-byte buffer. -/
theorem parse_bad_magic_default_record_witness :
    parseSfo (List.replicate 20 0) = Except.ok defaultRecord :=
  parse_bad_magic_default_record (List.replicate 20 0) (by decide) (by decide)

/-- C1 counterexample: a buffer with valid magic whose key-table offset 30
exceeds its data-table offset 10 makes parseSfo reach the out-of-bounds
slice branch, contradicting the claim that such input is recovered locally
as a default-region record with the out-of-bounds branch unreachable. -/
theorem parse_invalid_offsets_not_recovered :
    decodeI32 bufC1 12 < decodeI32 bufC1 8 ∧
    parseSfo bufC1 = Except.error Panic.sliceBounds := by decide

/-- C1 amended: for every buffer of at least twenty bytes with valid magic
whose header offsets violate 0 ≤ keyTableOffset ≤ dataTableOffset ≤
bufferLength, parseSfo reaches the out-of-bounds slice branch (a Go panic),
rather than recovering with a default record. -/
theorem parse_invalid_offsets_oob_panic (sfob : List Nat)
    (hlen : 20 ≤ sfob.length) (hmag : decodeI32 sfob 0 = sfoMagic)
    (hoff : ¬ (0 ≤ decodeI32 sfob 8 ∧ decodeI32 sfob 8 ≤ decodeI32 sfob 12 ∧
      decodeI32 sfob 12 ≤ (sfob.length : Int))) :
    parseSfo sfob = Except.error Panic.sliceBounds := by
  unfold parseSfo
  rw [if_neg (by omega), if_neg (by omega), if_neg (by simp [hmag]), if_neg hoff]

/-- Witness for the amended C1 at the concrete buffer bufC1. -/
theorem parse_invalid_offsets_oob_panic_witness :
    parseSfo bufC1 = Except.error Panic.sliceBounds :=
  parse_invalid_offsets_oob_panic bufC1 (by decide) (by decide) (by decide)

/-- C2 counterexample: in bufC2 the computed value range of the single
index entry ends at 137, past the 37-byte buffer, and parseSfo reaches the
out-of-bounds slice branch instead of clamping the range and returning a
record. -/
theorem parse_oversized_value_not_clamped :
    (bufC2.length : Int) <
      wrap32 (wrap32 (decodeI32 bufC2 12 + decodeI32 bufC2 32) + decodeI32 bufC2 24) ∧
    parseSfo bufC2 = Except.error Panic.sliceBounds := by decide

/-- C2 amended: whenever the value range computed for an index entry from
DataOffset plus the entry DataTableOffset and ParamLength escapes the
buffer, the decoding loop stops with the out-of-bounds slice panic for the
whole record, rather than clamping to the buffer end. -/
theorem entry_value_range_oob_panic (sfob : List Nat) (dataOff plen dto : Int)
    (k : GoStr) (ks : List GoStr) (pos : Nat) (m : GoMap)
    (hrem : pos + 16 ≤ sfob.length)
    (hplen : decodeI32 sfob (pos + 4) = plen)
    (hdto : decodeI32 sfob (pos + 12) = dto)
    (hoob : ¬ (0 ≤ wrap32 (dataOff + dto) ∧
      wrap32 (dataOff + dto) ≤ wrap32 (wrap32 (dataOff + dto) + plen) ∧
      wrap32 (wrap32 (dataOff + dto) + plen) ≤ (sfob.length : Int))) :
    loopEntries sfob dataOff (k :: ks) pos m = Except.error Panic.sliceBounds := by
  unfold loopEntries
  rw [if_neg (by omega), if_neg (by omega), hplen, hdto]
  unfold processEntry
  rw [if_neg hoob]

/-- Witness for the amended C2 at the concrete buffer bufC2. -/
theorem entry_value_range_oob_panic_witness :
    loopEntries bufC2 37 [[65]] 20 defaultRecord = Except.error Panic.sliceBounds :=
  entry_value_range_oob_panic bufC2 37 100 0 [65] [] 20 defaultRecord
    (by decide) (by decide) (by decide) (by decide)

/-- C4 counterexample: bufC4 has one split key while its Entries field is
0, so the claimed min of the two counts is 0; yet parseSfo decodes one
key-value pair (the empty key), not zero. -/
theorem parse_entry_count_not_min :
    (sfoKeys bufC4).length = 1 ∧ decodeI32 bufC4 16 = 0 ∧
    parseSfo bufC4 =
      Except.ok [(byteLit "REGION", byteLit "UNK"), ([], [])] := by decide

theorem mapFind_cons (k0 v0 : GoStr) (rest : GoMap) (k : GoStr) :
    mapFind ((k0, v0) :: rest) k = if k0 = k then some v0 else mapFind rest k := rfl

theorem mapSet_cons (k0 v0 : GoStr) (rest : GoMap) (k v : GoStr) :
    mapSet ((k0, v0) :: rest) k v =
      if k0 = k then (k, v) :: rest else (k0, v0) :: mapSet rest k v := rfl

/-- Key membership after a Go map assignment: the new key set is the old
one plus the assigned key. -/
theorem mapContains_mapSet (m : GoMap) (k v k2 : GoStr) :
    mapContains (mapSet m k v) k2 = true ↔ (k2 = k ∨ mapContains m k2 = true) := by
  induction m with
  | nil =>
      show mapContains [(k, v)] k2 = true ↔ (k2 = k ∨ mapContains [] k2 = true)
      unfold mapContains
      rw [mapFind_cons]
      by_cases h : k = k2
      · rw [if_pos h]
        simp [h.symm]
      · rw [if_neg h]
        have h2 : ¬ k2 = k := fun he => h he.symm
        simp [mapFind, h2]
  | cons p rest ih =>
      obtain ⟨k0, v0⟩ := p
      rw [mapSet_cons]
      by_cases h : k0 = k
      · subst h
        rw [if_pos rfl]
        unfold mapContains
        rw [mapFind_cons, mapFind_cons]
        by_cases h2 : k0 = k2
        · rw [if_pos h2, if_pos h2]
          simp [h2.symm]
        · rw [if_neg h2, if_neg h2]
          have h3 : ¬ k2 = k0 := fun he => h2 he.symm
          simp [h3]
      · rw [if_neg h]
        unfold mapContains
        rw [mapFind_cons, mapFind_cons]
        by_cases h2 : k0 = k2
        · rw [if_pos h2, if_pos h2]
          simp
        · rw [if_neg h2, if_neg h2]
          exact ih

/-- The region recomputation never changes the key set of a map that
already holds a REGION key, since it can only overwrite REGION. -/
theorem regionUpdate_keys (m mr : GoMap)
    (hreg : mapContains m (byteLit "REGION") = true)
    (h : regionUpdate m = Except.ok mr) :
    ∀ k2, (mapContains mr k2 = true ↔ mapContains m k2 = true) := by
  intro k2
  unfold regionUpdate at h
  split at h
  · simp only [Except.ok.injEq] at h
    subst h
    exact Iff.rfl
  · split at h
    · split at h
      · simp only [Except.ok.injEq] at h
        subst h
        rw [mapContains_mapSet]
        constructor
        · rintro (rfl | hm)
          · exact hreg
          · exact hm
        · exact Or.inr
      · simp only [Except.ok.injEq] at h
        subst h
        exact Iff.rfl
    · simp at h

/-- A successful loop body adds exactly the current split key to the key
set and keeps REGION present. -/
theorem processEntry_keys (sfob : List Nat) (dataOff : Int) (k : GoStr)
    (plen dto : Int) (m m2 : GoMap)
    (hreg : mapContains m (byteLit "REGION") = true)
    (h : processEntry sfob dataOff k plen dto m = Except.ok m2) :
    mapContains m2 (byteLit "REGION") = true ∧
    ∀ k2, (mapContains m2 k2 = true ↔ (k2 = k ∨ mapContains m k2 = true)) := by
  unfold processEntry at h
  split at h
  · have hreg2 : mapContains (mapSet m k (safeString
        ((sfob.drop (wrap32 (dataOff + dto)).toNat).take
          (wrap32 (wrap32 (dataOff + dto) + plen) - wrap32 (dataOff + dto)).toNat)))
        (byteLit "REGION") = true :=
      (mapContains_mapSet _ _ _ _).mpr (Or.inr hreg)
    have hru := regionUpdate_keys _ _ hreg2 h
    refine ⟨(hru _).mpr hreg2, fun k2 => ?_⟩
    exact (hru k2).trans (mapContains_mapSet _ _ _ _)
  · simp at h

/-- A successful run of the decoding loop extends the key set of the
accumulator map by exactly the processed split keys, one pair per key. -/
theorem loopEntries_keys (sfob : List Nat) (dataOff : Int) :
    ∀ (ks : List GoStr) (pos : Nat) (m mr : GoMap),
      mapContains m (byteLit "REGION") = true →
      loopEntries sfob dataOff ks pos m = Except.ok mr →
      ∀ k2, (mapContains mr k2 = true ↔ (mapContains m k2 = true ∨ k2 ∈ ks)) := by
  intro ks
  induction ks with
  | nil =>
      intro pos m mr hreg h k2
      unfold loopEntries at h
      simp only [Except.ok.injEq] at h
      subst h
      simp
  | cons k ks ih =>
      intro pos m mr hreg h k2
      unfold loopEntries at h
      by_cases h1 : sfob.length ≤ pos
      · rw [if_pos h1] at h
        cases hpe : processEntry sfob dataOff k 0 0 m with
        | ok mm =>
            rw [hpe] at h
            dsimp only at h
            obtain ⟨hreg2, hkeys⟩ := processEntry_keys sfob dataOff k 0 0 m mm hreg hpe
            rw [ih (pos + 16) mm mr hreg2 h k2, hkeys k2, List.mem_cons]
            tauto
        | error e =>
            rw [hpe] at h
            simp at h
      · rw [if_neg h1] at h
        by_cases h2 : sfob.length < pos + 16
        · rw [if_pos h2] at h
          simp at h
        · rw [if_neg h2] at h
          cases hpe : processEntry sfob dataOff k (decodeI32 sfob (pos + 4))
              (decodeI32 sfob (pos + 12)) m with
          | ok mm =>
              rw [hpe] at h
              dsimp only at h
              obtain ⟨hreg2, hkeys⟩ := processEntry_keys sfob dataOff k
                (decodeI32 sfob (pos + 4)) (decodeI32 sfob (pos + 12)) m mm hreg hpe
              rw [ih (pos + 16) mm mr hreg2 h k2, hkeys k2, List.mem_cons]
              tauto
          | error e =>
              rw [hpe] at h
              simp at h

/-- C4 amended: for every buffer of at least twenty bytes with valid magic
from which parseSfo returns a record, the keys of that record are exactly
the synthesized REGION plus the NUL-split keys of the key table, whatever
the Entries field holds: one decoded pair per split key, with the Entries
field never consulted. -/
theorem parse_one_pair_per_split_key (sfob : List Nat) (mr : GoMap)
    (hlen : 20 ≤ sfob.length) (hmag : decodeI32 sfob 0 = sfoMagic)
    (hok : parseSfo sfob = Except.ok mr) :
    ∀ k, (mapContains mr k = true ↔ (k = byteLit "REGION" ∨ k ∈ sfoKeys sfob)) := by
  intro k
  unfold parseSfo at hok
  rw [if_neg (by omega), if_neg (by omega), if_neg (by simp [hmag])] at hok
  by_cases hoff : 0 ≤ decodeI32 sfob 8 ∧ decodeI32 sfob 8 ≤ decodeI32 sfob 12 ∧
      decodeI32 sfob 12 ≤ (sfob.length : Int)
  · rw [if_pos hoff] at hok
    have hd : mapContains defaultRecord k = true ↔ k = byteLit "REGION" := by
      unfold defaultRecord mapContains
      rw [mapFind_cons]
      by_cases hk : byteLit "REGION" = k
      · rw [if_pos hk]
        simp [hk.symm]
      · rw [if_neg hk]
        have hk2 : ¬ k = byteLit "REGION" := fun he => hk he.symm
        simp [mapFind, hk2]
    rw [loopEntries_keys sfob (decodeI32 sfob 12) (sfoKeys sfob) 20 defaultRecord mr
      (by decide) hok k, hd]
  · rw [if_neg hoff] at hok
    simp at hok

/-- Witness for the amended C4 at bufC4b, a two-key SFO whose Entries
field claims seven entries while the NUL split yields two keys. -/
theorem parse_one_pair_per_split_key_witness :
    mapContains [(byteLit "REGION", byteLit "UNK"), (byteLit "AAA", byteLit "x"),
      (byteLit "BBB", byteLit "y")] (byteLit "AAA") = true ↔
      (byteLit "AAA" = byteLit "REGION" ∨ byteLit "AAA" ∈ sfoKeys bufC4b) :=
  parse_one_pair_per_split_key bufC4b
    [(byteLit "REGION", byteLit "UNK"), (byteLit "AAA", byteLit "x"),
     (byteLit "BBB", byteLit "y")]
    (by decide) (by decide) (by decide) (byteLit "AAA")

/-- C5: appVer and version are updated by lexicographic byte comparison, a
candidate replacing the current value exactly when it is strictly greater
as a string; folding APP_VER 2.00 then 10.00 keeps 2.00, while folding
02.00 then 10.00 ends at 10.00. -/
theorem appver_lexicographic :
    (∀ (d : NameData) (m : GoMap), (taskStep d m).appVer =
      if mapContains m (byteLit "APP_VER") then
        (if goLt d.appVer (mGet m (byteLit "APP_VER"))
          then mGet m (byteLit "APP_VER") else d.appVer)
      else d.appVer) ∧
    (∀ (d : NameData) (m : GoMap), (taskStep d m).version =
      if mapContains m (byteLit "APP_VER") then
        (if goLt d.version (mGet m (byteLit "VERSION"))
          then mGet m (byteLit "VERSION") else d.version)
      else d.version) ∧
    (foldRecords {} [recA5, recB5]).appVer = byteLit "2.00" ∧
    (foldRecords {} [recC5, recB5]).appVer = byteLit "10.00" :=
  ⟨taskStep_appVer, taskStep_version, by decide, by decide⟩

/-- C6: after folding, title, titleId and region equal the TITLE, TITLE_ID
and REGION values of the last record in discovery order that contains an
APP_VER key, independently of any version comparison. -/
theorem last_appver_record_wins (init : NameData) (rs1 rs2 : List GoMap)
    (r : GoMap) (hr : mapContains r (byteLit "APP_VER") = true)
    (h2 : ∀ x ∈ rs2, mapContains x (byteLit "APP_VER") = false) :
    (foldRecords init (rs1 ++ r :: rs2)).title = mGet r (byteLit "TITLE") ∧
    (foldRecords init (rs1 ++ r :: rs2)).titleId = mGet r (byteLit "TITLE_ID") ∧
    (foldRecords init (rs1 ++ r :: rs2)).region = mGet r (byteLit "REGION") := by
  have hsplit : foldRecords init (rs1 ++ r :: rs2) =
      foldRecords (taskStep (foldRecords init rs1) r) rs2 := by
    unfold foldRecords
    rw [List.foldl_append, List.foldl_cons]
  rw [hsplit]
  have hp := fold_noAppVer rs2 h2 (taskStep (foldRecords init rs1) r)
  have hs := taskStep_withAppVer (foldRecords init rs1) r hr
  exact ⟨hp.1.trans hs.1, hp.2.2.2.1.trans hs.2.1, hp.2.2.2.2.trans hs.2.2⟩

/-- Witness for C6 with an earlier APP_VER record before the last
qualifying record and a trailing record without APP_VER. -/
theorem last_appver_record_wins_witness :
    (foldRecords {} ([recA5] ++ recC6 :: [recC8])).title = mGet recC6 (byteLit "TITLE") ∧
    (foldRecords {} ([recA5] ++ recC6 :: [recC8])).titleId = mGet recC6 (byteLit "TITLE_ID") ∧
    (foldRecords {} ([recA5] ++ recC6 :: [recC8])).region = mGet recC6 (byteLit "REGION") :=
  last_appver_record_wins {} [recA5] [recC8] recC6 (by decide)
    (by intro x hx; simp only [List.mem_singleton] at hx; subst hx; decide)

/-- C7: every folded record whose CATEGORY is ac increments the add-on
counter regardless of APP_VER, and folding one qualifying record twice
doubles the counter while leaving title, appVer and version the same as
folding it once. -/
theorem ac_counter_and_double_fold :
    (∀ (d : NameData) (m : GoMap), (taskStep d m).ac =
      if mGet m (byteLit "CATEGORY") = byteLit "ac" then d.ac + 1 else d.ac) ∧
    (∀ r : GoMap, mGet r (byteLit "CATEGORY") = byteLit "ac" →
      mapContains r (byteLit "APP_VER") = true →
      (foldRecords {} [r, r]).ac = 2 * (foldRecords {} [r]).ac ∧
      (foldRecords {} [r, r]).title = (foldRecords {} [r]).title ∧
      (foldRecords {} [r, r]).appVer = (foldRecords {} [r]).appVer ∧
      (foldRecords {} [r, r]).version = (foldRecords {} [r]).version) := by
  refine ⟨taskStep_ac, ?_⟩
  intro r hc ha
  have h1 : foldRecords {} [r] = taskStep {} r := rfl
  have h2 : foldRecords {} [r, r] = taskStep (taskStep {} r) r := rfl
  rw [h1, h2]
  have hac1 : (taskStep ({} : NameData) r).ac = 1 := by
    rw [taskStep_ac, if_pos hc]
  have hac2 : (taskStep (taskStep ({} : NameData) r) r).ac = 2 := by
    rw [taskStep_ac, if_pos hc, hac1]
  have htit1 := taskStep_withAppVer {} r ha
  have htit2 := taskStep_withAppVer (taskStep {} r) r ha
  exact ⟨by rw [hac1, hac2], htit2.1.trans htit1.1.symm,
    taskStep_repeat_appVer {} r ha, taskStep_repeat_version {} r ha⟩

/-- Witness for C7 at a concrete record with CATEGORY ac and APP_VER. -/
theorem ac_counter_and_double_fold_witness :
    (foldRecords {} [recC7, recC7]).ac = 2 * (foldRecords {} [recC7]).ac ∧
    (foldRecords {} [recC7, recC7]).title = (foldRecords {} [recC7]).title ∧
    (foldRecords {} [recC7, recC7]).appVer = (foldRecords {} [recC7]).appVer ∧
    (foldRecords {} [recC7, recC7]).version = (foldRecords {} [recC7]).version :=
  ac_counter_and_double_fold.2 recC7 (by decide) (by decide)

/-- C8: when no record of an archive contains APP_VER, all naming fields
of the folded descriptor stay empty and the rename gate of task rejects, so
no rename is attempted. -/
theorem no_appver_empty_descriptor (rs : List GoMap)
    (h : ∀ m ∈ rs, mapContains m (byteLit "APP_VER") = false) :
    (foldRecords {} rs).title = [] ∧ (foldRecords {} rs).appVer = [] ∧
    (foldRecords {} rs).version = [] ∧ (foldRecords {} rs).titleId = [] ∧
    (foldRecords {} rs).region = [] ∧
    shouldRename (foldRecords {} rs) = false := by
  have hp := fold_noAppVer rs h {}
  refine ⟨hp.1, hp.2.1, hp.2.2.1, hp.2.2.2.1, hp.2.2.2.2, ?_⟩
  unfold shouldRename
  rw [hp.1]
  rfl

/-- Witness for C8 at a record list without APP_VER. -/
theorem no_appver_empty_descriptor_witness :
    (foldRecords {} [recC8]).title = [] ∧ (foldRecords {} [recC8]).appVer = [] ∧
    (foldRecords {} [recC8]).version = [] ∧ (foldRecords {} [recC8]).titleId = [] ∧
    (foldRecords {} [recC8]).region = [] ∧
    shouldRename (foldRecords {} [recC8]) = false :=
  no_appver_empty_descriptor [recC8]
    (by intro x hx; simp only [List.mem_singleton] at hx; subst hx; decide)

/-- C9: parseSfo returns a record only when every decoded TITLE_ID has at
least four bytes after sanitization: on bufC9bad, whose raw TITLE_ID value
is four bytes but sanitizes to two, the region slice panics and decoding
does not return normally, while the same buffer with a clean four-byte
TITLE_ID decodes fine. -/
theorem short_title_id_panics :
    parseSfo bufC9bad = Except.error Panic.stringSlice ∧
    (safeString (byteLit "A/B:")).length = 2 ∧
    parseSfo bufC9ok =
      Except.ok [(byteLit "REGION", byteLit "UNK"),
                 (byteLit "TITLE_ID", byteLit "ABCD")] := by decide

/-- C10: safeString is idempotent, since its output never contains any of
the removed bytes. -/
theorem safeString_idempotent (s : GoStr) :
    safeString (safeString s) = safeString s := by
  unfold safeString
  rw [List.filter_filter]
  simp

end VitaRename
